import Mathlib

/-!
Shallow embedding of the automations-cookbook repository (Python) in Lean 4.

The embedding models, faithfully to the source:
  * `src/scripts/scraper.py` — the retry loop `TemplateScraper._make_request`
    and the per-item batch extraction loop of `scrape_templates`;
  * `src/api/templates.py` — the Netlify function `handler`;
  * `src/scripts/metadata_generator.py` — `generate_metadata`,
    `_generate_description`, `_extract_keywords`, `_generate_tags`,
    `_determine_category`, and `create_frontmatter`.

Python strings are modelled as Lean `String` (a wrapper around `List Char`
in this toolchain) or directly as `List Char`; Python string primitives
(`str.lower`, `str.strip`, `int(...)`, slicing, substring test) are given
explicit executable models restricted to ASCII, which is the alphabet the
repository actually manipulates.  Fallible operations return `Option` /
`Except`; the ambient clock (`datetime.now()`) is passed as an explicit
argument.
-/

/-- Model of Python `str.lower` on an ASCII character. -/
def pyLowerChar (c : Char) : Char :=
  if 'A' ≤ c ∧ c ≤ 'Z' then Char.ofNat (c.toNat + 32) else c

/-- Model of Python `str.lower` (ASCII). -/
def pyLower (s : String) : String := String.mk (s.data.map pyLowerChar)

/-- Characters treated as whitespace by Python `str.strip`. -/
def isPySpace (c : Char) : Bool :=
  c = ' ' || c = '\t' || c = '\n' || c = '\r' || c = '\x0b' || c = '\x0c'

/-- Model of Python `str.strip` on a character list. -/
def pyStripChars (cs : List Char) : List Char :=
  ((cs.dropWhile isPySpace).reverse.dropWhile isPySpace).reverse

/-- Model of Python `str.strip`. -/
def pyStrip (s : String) : String := String.mk (pyStripChars s.data)

/-- Parse a nonempty all-digit character list into a natural number. -/
def pyDigits : List Char → Option Nat
  | [] => none
  | [c] => if c.isDigit then some (c.toNat - '0'.toNat) else none
  | c :: rest =>
    if c.isDigit then
      (pyDigits rest).map (fun n => (c.toNat - '0'.toNat) * 10 ^ rest.length + n)
    else none

/-- Model of Python `int(str)`: optional surrounding whitespace, an optional
sign, then decimal digits; anything else raises `ValueError` (here: `none`). -/
def pyInt (s : String) : Option Int :=
  match pyStripChars s.data with
  | '-' :: rest => (pyDigits rest).map (fun n => -(n : Int))
  | '+' :: rest => (pyDigits rest).map (fun n => (n : Int))
  | cs => (pyDigits cs).map (fun n => (n : Int))

/-- Model of Python slicing `l[:k]` for an arbitrary (possibly negative)
integer bound `k`. -/
def pySliceTo {α : Type} (l : List α) (k : Int) : List α :=
  if 0 ≤ k then l.take k.toNat else l.take ((l.length : Int) + k).toNat

/-- Does `sub` occur as a contiguous substring of `s`?  Model of Python
`sub in s`. -/
def listContainsSub {α : Type} [DecidableEq α] (s sub : List α) : Bool :=
  match s with
  | [] => sub.isPrefixOf s
  | _ :: rest => sub.isPrefixOf s || listContainsSub rest sub

/-- Model of Python `sub in s` on strings. -/
def pyContains (s sub : String) : Bool := listContainsSub s.data sub.data

/-! ## `src/scripts/scraper.py` — retry loop of `TemplateScraper._make_request`

The loop `for attempt in range(Config.RETRY_ATTEMPTS)` performs a rate-limited
`session.get`; a `requests.exceptions.RequestException` on attempt `attempt`
sleeps `2 ** attempt` seconds when `attempt < RETRY_ATTEMPTS - 1` and returns
`None` on the last attempt.  A successful response is returned immediately.
The outcome of each attempt (success with a response, or a request error) is
modelled by `outcomes : Nat → Option α`; the trace records the returned value,
the number of attempts performed and the sleep durations in order. -/

/-- Result of a run of `_make_request`: returned value (`none` models the
Python `None` failure signal — the function never raises past this boundary),
number of attempts made, and the backoff sleeps (in seconds) in order. -/
structure ReqTrace (α : Type) where
  result : Option α
  attempts : Nat
  sleeps : List Nat
deriving DecidableEq

/-- The retry loop of `_make_request`, with `attempt` the current 0-based
attempt index and `remaining` the number of loop iterations left
(`RETRY_ATTEMPTS - attempt`). -/
def makeRequestLoop {α : Type} (outcomes : Nat → Option α) :
    Nat → Nat → ReqTrace α
  | attempt, 0 => ⟨none, attempt, []⟩
  | attempt, remaining + 1 =>
    match outcomes attempt with
    | some resp => ⟨some resp, attempt + 1, []⟩
    | none =>
      if 0 < remaining then
        let rest := makeRequestLoop outcomes (attempt + 1) remaining
        ⟨rest.result, rest.attempts, 2 ^ attempt :: rest.sleeps⟩
      else
        ⟨none, attempt + 1, []⟩

/-- `TemplateScraper._make_request` with `retryAttempts` the configured
`Config.RETRY_ATTEMPTS`. -/
def make_request {α : Type} (retryAttempts : Nat) (outcomes : Nat → Option α) :
    ReqTrace α :=
  makeRequestLoop outcomes 0 retryAttempts

/-! ## `src/scripts/scraper.py` — batch extraction of `scrape_templates`

For each listing element the loop body runs
`template = self._extract_template_info(element)` inside `try`, appends the
template when it is truthy (`if template:`), skips it when extraction
returned `None`, and on an exception logs a warning and continues with the
next element.  Each element is modelled by the outcome of extracting it. -/

/-- Outcome of `_extract_template_info` on one listing element: an exception
(caught by the `except` clause of the batch loop), a `None` return, or a
successfully extracted template. -/
inductive ExtractOutcome (α : Type) where
  | raise (msg : String)
  | retNone
  | retSome (t : α)
deriving DecidableEq

/-- The successfully extracted template of an outcome, if any. -/
def extractSuccess {α : Type} : ExtractOutcome α → Option α
  | .retSome t => some t
  | _ => none

/-- The `for idx, element in enumerate(template_elements)` loop of
`scrape_templates`: accumulates successfully extracted templates in order,
skipping elements whose extraction returned `None` or raised. -/
def scrape_templates_loop {α : Type} : List (ExtractOutcome α) → List α
  | [] => []
  | .retSome t :: rest => t :: scrape_templates_loop rest
  | .retNone :: rest => scrape_templates_loop rest
  | .raise _ :: rest => scrape_templates_loop rest

/-! ## Theorems for the retry loop -/

theorem makeRequestLoop_succ {α : Type} (outcomes : Nat → Option α)
    (attempt remaining : Nat) :
    makeRequestLoop outcomes attempt (remaining + 1) =
      (match outcomes attempt with
       | some resp => ⟨some resp, attempt + 1, []⟩
       | none =>
         if 0 < remaining then
           let rest := makeRequestLoop outcomes (attempt + 1) remaining
           ⟨rest.result, rest.attempts, 2 ^ attempt :: rest.sleeps⟩
         else
           ⟨none, attempt + 1, []⟩) := rfl

theorem makeRequestLoop_all_fail {α : Type} (outcomes : Nat → Option α)
    (a r : Nat) (h : ∀ i, a ≤ i → i < a + r → outcomes i = none) :
    makeRequestLoop outcomes a r =
      ⟨none, a + r, (List.range (r - 1)).map (fun i => 2 ^ (a + i))⟩ := by
  induction r generalizing a with
  | zero => simp [makeRequestLoop]
  | succ r ih =>
    have ha : outcomes a = none := h a le_rfl (by omega)
    have step : makeRequestLoop outcomes a (r + 1) =
        (if 0 < r then
          let rest := makeRequestLoop outcomes (a + 1) r
          (⟨rest.result, rest.attempts, 2 ^ a :: rest.sleeps⟩ : ReqTrace α)
         else
          ⟨none, a + 1, []⟩) := by
      rw [makeRequestLoop_succ, ha]
    rw [step]
    cases r with
    | zero => simp
    | succ r' =>
      have hrec := ih (a + 1) (by intro i h1 h2; exact h i (by omega) (by omega))
      simp only [Nat.zero_lt_succ, if_pos, hrec]
      simp only [ReqTrace.mk.injEq]
      refine ⟨trivial, by omega, ?_⟩
      simp only [Nat.add_sub_cancel]
      rw [List.range_succ_eq_map]
      simp only [List.map_cons, List.map_map, Function.comp, Nat.add_zero]
      congr 1
      apply List.map_congr_left
      intro i hi
      congr 1
      omega

/-- C1: when every one of the configured `RETRY_ATTEMPTS` attempts fails with
a request error, `_make_request` returns `None` (the "no data" failure
signal) after performing exactly `RETRY_ATTEMPTS` attempts; the model is a
total function, so no exception escapes this boundary. -/
theorem make_request_all_fail {α : Type} (retryAttempts : Nat)
    (outcomes : Nat → Option α)
    (h : ∀ i, i < retryAttempts → outcomes i = none) :
    (make_request retryAttempts outcomes).result = none ∧
    (make_request retryAttempts outcomes).attempts = retryAttempts := by
  have := makeRequestLoop_all_fail outcomes 0 retryAttempts
    (by intro i _ h2; exact h i (by omega))
  unfold make_request
  rw [this]
  exact ⟨rfl, by simp⟩

/-- Concrete run of `make_request_all_fail`: three configured attempts, all
failing. -/
theorem make_request_all_fail_witness :
    (make_request 3 (fun _ => (none : Option Nat))).result = none ∧
    (make_request 3 (fun _ => (none : Option Nat))).attempts = 3 :=
  make_request_all_fail 3 (fun _ => none) (fun _ _ => rfl)

theorem makeRequestLoop_eventual_success {α : Type} (outcomes : Nat → Option α)
    (resp : α) (k : Nat) :
    ∀ a rem, k < rem → (∀ i, i < k → outcomes (a + i) = none) →
    outcomes (a + k) = some resp →
    makeRequestLoop outcomes a rem =
      ⟨some resp, a + k + 1, (List.range k).map (fun i => 2 ^ (a + i))⟩ := by
  induction k with
  | zero =>
    intro a rem hk hfail hsucc
    cases rem with
    | zero => omega
    | succ r =>
      simp only [Nat.add_zero] at hsucc
      rw [makeRequestLoop_succ, hsucc]
      simp
  | succ k ih =>
    intro a rem hk hfail hsucc
    cases rem with
    | zero => omega
    | succ r =>
      have ha : outcomes a = none := by
        have := hfail 0 (by omega)
        simpa using this
      have hr : 0 < r := by omega
      have hrec := ih (a + 1) r (by omega)
        (by intro i hi
            have := hfail (i + 1) (by omega)
            simpa [Nat.add_assoc, Nat.add_comm 1 i] using this)
        (by have : a + 1 + k = a + (k + 1) := by omega
            rw [this]; exact hsucc)
      have step : makeRequestLoop outcomes a (r + 1) =
          (if 0 < r then
            let rest := makeRequestLoop outcomes (a + 1) r
            (⟨rest.result, rest.attempts, 2 ^ a :: rest.sleeps⟩ : ReqTrace α)
           else
            ⟨none, a + 1, []⟩) := by
        rw [makeRequestLoop_succ, ha]
      rw [step]
      simp only [hr, if_pos, hrec]
      simp only [ReqTrace.mk.injEq]
      refine ⟨trivial, by omega, ?_⟩
      rw [List.range_succ_eq_map]
      simp only [List.map_cons, List.map_map, Function.comp, Nat.add_zero]
      congr 1
      apply List.map_congr_left
      intro i hi
      congr 1
      omega

/-- C2: if the first `k` attempts fail with a request error and attempt
`k + 1` succeeds (with `k < RETRY_ATTEMPTS`), `_make_request` returns the
successful response, and between consecutive attempts it slept
`2 ^ attempt` seconds for each failed attempt `attempt = 0, …, k - 1` — an
exponentially increasing backoff. -/
theorem make_request_eventual_success {α : Type} (retryAttempts k : Nat)
    (outcomes : Nat → Option α) (resp : α)
    (hk : k < retryAttempts)
    (hfail : ∀ i, i < k → outcomes i = none)
    (hsucc : outcomes k = some resp) :
    make_request retryAttempts outcomes =
      ⟨some resp, k + 1, (List.range k).map (fun i => 2 ^ i)⟩ := by
  unfold make_request
  have := makeRequestLoop_eventual_success outcomes resp k 0 retryAttempts hk
    (by intro i hi; simpa using hfail i hi)
    (by simpa using hsucc)
  simpa using this

/-- Concrete run of `make_request_eventual_success`: the first two of three
attempts fail, the third succeeds; the response is returned and the sleeps
were `2^0 = 1` and `2^1 = 2` seconds. -/
theorem make_request_eventual_success_witness :
    make_request 3 (fun i => if i = 2 then some 42 else (none : Option Nat)) =
      ⟨some 42, 3, [1, 2]⟩ :=
  make_request_eventual_success 3 2 _ 42 (by decide)
    (by intro i hi; interval_cases i <;> rfl) rfl

/-- C3: per-item isolation in `scrape_templates`.  The batch loop (1) returns
exactly the successfully extracted templates, in order, and (2) a parse
failure (an exception raised while extracting one element) is skipped
without aborting the batch: the elements before and after it are processed
exactly as they would be on their own. -/
theorem scrape_templates_isolation (α : Type) :
    (∀ zs : List (ExtractOutcome α),
       scrape_templates_loop zs = zs.filterMap extractSuccess) ∧
    (∀ (xs ys : List (ExtractOutcome α)) (msg : String),
       scrape_templates_loop (xs ++ ExtractOutcome.raise msg :: ys) =
         scrape_templates_loop xs ++ scrape_templates_loop ys) := by
  have hfm : ∀ zs : List (ExtractOutcome α),
      scrape_templates_loop zs = zs.filterMap extractSuccess := by
    intro zs
    induction zs with
    | nil => rfl
    | cons z rest ih =>
      cases z <;> simp [scrape_templates_loop, extractSuccess, ih]
  refine ⟨hfm, ?_⟩
  intro xs ys msg
  simp [hfm, List.filterMap_append, extractSuccess]

/-! ## `src/api/templates.py` — the Netlify function `handler`

A template record is a JSON dictionary; the handler reads only its
`source` key (`t.get('source', ...)`), which may be missing.  The event
carries `httpMethod` and `queryStringParameters` (either may be absent).
`load_templates()` reads the data files; an unhandled exception anywhere in
the `try` block is modelled by `Except.error`, so the loaded data is passed
as an explicit `Except String (List Template)` argument.  The response body
is the dictionary passed to `json.dumps`, kept structured. -/

/-- A template record as served by the API (`{title, description, url,
source}`, any field possibly missing; only `source` matters to the
handler). -/
structure Template where
  title : String := ""
  description : String := ""
  url : String := ""
  source : Option String := none
deriving DecidableEq

/-- The Netlify event: `httpMethod` and `queryStringParameters` (the latter
is `None` when the request has no query string). -/
structure HttpEvent where
  httpMethod : Option String
  queryStringParameters : Option (List (String × String))

/-- The JSON document passed to `json.dumps` for the response body (or the
empty body for the CORS preflight answer). -/
inductive ResponseBody where
  | empty
  | errorJson (msg : String)
  | templatesJson (count : Nat) (templates : List Template) (sources : List String)
deriving DecidableEq

/-- A handler response: status code and body (the constant CORS headers are
omitted). -/
structure HandlerResponse where
  statusCode : Nat
  body : ResponseBody
deriving DecidableEq

/-- `int(params.get('limit', 100))`: the default is the integer `100`; a
present parameter is parsed by `int(...)`, whose `ValueError` is modelled by
`none`. -/
def parseLimitParam (params : List (String × String)) : Option Int :=
  match params.lookup "limit" with
  | none => some 100
  | some s => pyInt s

/-- `list(set(t.get('source', 'unknown') for t in templates))`: the distinct
source values among the returned templates, with `'unknown'` substituted for
a missing source field. -/
def pySources (ts : List Template) : List String :=
  (ts.map (fun t => t.source.getD "unknown")).dedup

/-- The `handler` function of `src/api/templates.py`.  `loadResult` is the
outcome of `load_templates()` (and stands for any unhandled exception inside
the `try` block once the query parameters have been parsed). -/
def handler (event : HttpEvent) (loadResult : Except String (List Template)) :
    HandlerResponse :=
  if event.httpMethod = some "OPTIONS" then
    ⟨200, ResponseBody.empty⟩
  else if event.httpMethod ≠ some "GET" then
    ⟨405, ResponseBody.errorJson "Method not allowed"⟩
  else
    let params := event.queryStringParameters.getD []
    let sourceFilter := pyLower ((params.lookup "source").getD "")
    match parseLimitParam params with
    | none => ⟨500, ResponseBody.errorJson "invalid literal for int() with base 10"⟩
    | some limit =>
      match loadResult with
      | .error e => ⟨500, ResponseBody.errorJson e⟩
      | .ok templates0 =>
        let filtered :=
          if sourceFilter ≠ "" then
            templates0.filter (fun t => pyLower (t.source.getD "") == sourceFilter)
          else templates0
        let templates := pySliceTo filtered limit
        ⟨200, ResponseBody.templatesJson templates.length templates (pySources templates)⟩

/-! ## Theorems for the `handler` -/

theorem pyLower_ne_empty {s : String} (h : s ≠ "") : pyLower s ≠ "" := by
  intro hc
  apply h
  cases s with
  | mk data =>
    cases data with
    | nil => rfl
    | cons c cs =>
      exfalso
      have : (String.mk ((c :: cs).map pyLowerChar)).data = ("" : String).data := by
        rw [show String.mk ((c :: cs).map pyLowerChar) = ("" : String) from hc]
      simp at this

theorem pySliceTo_nonneg {α : Type} (l : List α) (k : Int) (h : 0 ≤ k) :
    pySliceTo l k = l.take k.toNat := by
  simp [pySliceTo, h]

/-- C6: the handler answers the CORS preflight `OPTIONS` request with status
200 and an empty body; any method other than `GET` and `OPTIONS` gets status
405; and an unhandled exception while serving a `GET` request (a failure of
`load_templates()`, or a `ValueError` from parsing the `limit` parameter)
yields status 500 with an `{'error': ...}` body. -/
theorem handler_status_codes (event : HttpEvent)
    (load : Except String (List Template)) (e : String) :
    (event.httpMethod = some "OPTIONS" →
      handler event load = ⟨200, ResponseBody.empty⟩) ∧
    (event.httpMethod ≠ some "OPTIONS" → event.httpMethod ≠ some "GET" →
      handler event load = ⟨405, ResponseBody.errorJson "Method not allowed"⟩) ∧
    (event.httpMethod = some "GET" → load = Except.error e →
      parseLimitParam (event.queryStringParameters.getD []) ≠ none →
      handler event load = ⟨500, ResponseBody.errorJson e⟩) ∧
    (event.httpMethod = some "GET" →
      parseLimitParam (event.queryStringParameters.getD []) = none →
      handler event load =
        ⟨500, ResponseBody.errorJson "invalid literal for int() with base 10"⟩) := by
  refine ⟨?_, ?_, ?_, ?_⟩
  · intro h
    simp [handler, h]
  · intro h1 h2
    simp [handler, h1, h2]
  · intro h1 h2 h3
    subst h2
    obtain ⟨k, hk⟩ := Option.ne_none_iff_exists'.mp h3
    simp [handler, h1, hk]
  · intro h1 h2
    simp [handler, h1, h2]

/-- Concrete runs of `handler_status_codes`: an `OPTIONS` preflight, a `POST`
request, a `GET` whose data loading raises, and a `GET` with an unparsable
`limit`. -/
theorem handler_status_codes_witness :
    handler ⟨some "OPTIONS", none⟩ (Except.ok []) = ⟨200, ResponseBody.empty⟩ ∧
    handler ⟨some "POST", none⟩ (Except.ok []) =
      ⟨405, ResponseBody.errorJson "Method not allowed"⟩ ∧
    handler ⟨some "GET", none⟩ (Except.error "boom") =
      ⟨500, ResponseBody.errorJson "boom"⟩ ∧
    handler ⟨some "GET", some [("limit", "abc")]⟩ (Except.ok []) =
      ⟨500, ResponseBody.errorJson "invalid literal for int() with base 10"⟩ :=
  ⟨(handler_status_codes ⟨some "OPTIONS", none⟩ (Except.ok []) "").1 rfl,
   (handler_status_codes ⟨some "POST", none⟩ (Except.ok []) "").2.1
     (by decide) (by decide),
   (handler_status_codes ⟨some "GET", none⟩ (Except.error "boom") "boom").2.2.1
     rfl rfl (by decide),
   (handler_status_codes ⟨some "GET", some [("limit", "abc")]⟩ (Except.ok []) "").2.2.2
     rfl (by decide)⟩

/-- C4 (as stated) is false: the handler truncates the filtered list to the
`limit` parameter (default 100) before responding, so the response body need
not contain every matching record.  Concretely, a `GET` with
`source=N8N&limit=1` over two records whose source matches `n8n`
case-insensitively returns only one of them. -/
theorem handler_source_filter_counterexample :
    handler ⟨some "GET", some [("source", "N8N"), ("limit", "1")]⟩
        (Except.ok [{ source := some "n8n" }, { source := some "n8n" }]) =
      ⟨200, ResponseBody.templatesJson 1 [{ source := some "n8n" }] ["n8n"]⟩ ∧
    (([{ source := some "n8n" }, { source := some "n8n" }] : List Template).filter
        (fun t => pyLower (t.source.getD "") == pyLower "N8N")).length = 2 := by
  decide

/-- C4 (amended): for a `GET` request with a non-empty `source` parameter and
a parsed non-negative `limit` (default 100), the templates in the response
body are exactly the first `limit` of those records whose source field
case-insensitively equals the given value; records missing a source field
never match a non-empty filter. -/
theorem handler_source_filter (event : HttpEvent) (ts : List Template)
    (s : String) (k : Int)
    (hm : event.httpMethod = some "GET")
    (hs : (event.queryStringParameters.getD []).lookup "source" = some s)
    (hne : s ≠ "")
    (hk : parseLimitParam (event.queryStringParameters.getD []) = some k)
    (hknn : 0 ≤ k) :
    handler event (Except.ok ts) =
      ⟨200,
       ResponseBody.templatesJson
         ((ts.filter (fun t => pyLower (t.source.getD "") == pyLower s)).take k.toNat).length
         ((ts.filter (fun t => pyLower (t.source.getD "") == pyLower s)).take k.toNat)
         (pySources ((ts.filter (fun t => pyLower (t.source.getD "") == pyLower s)).take k.toNat))⟩ ∧
    (∀ t : Template, t.source = none →
       (pyLower (t.source.getD "") == pyLower s) = false) := by
  constructor
  · have hlow := pyLower_ne_empty hne
    simp only [handler, hm, hs]
    simp only [Option.getD_some]
    rw [hk]
    simp only [if_neg (by decide : ¬ (some "GET" = some "OPTIONS")),
      if_neg (by simp : ¬ (some "GET" ≠ some "GET"))]
    simp only [if_pos hlow, pySliceTo_nonneg _ _ hknn]
  · intro t ht
    simp only [ht, Option.getD_none]
    have := pyLower_ne_empty hne
    simp [beq_iff_eq]
    intro hc
    exact absurd hc.symm this

/-- Concrete run of `handler_source_filter`: filtering four records by
`source=N8N` with `limit=100` keeps exactly the two case-insensitive `n8n`
matches, in order. -/
theorem handler_source_filter_witness :
    handler ⟨some "GET", some [("source", "N8N"), ("limit", "100")]⟩
        (Except.ok [{ source := some "n8n" }, { source := some "zapier" },
                    { source := some "N8n" }, {}]) =
      ⟨200,
       ResponseBody.templatesJson
         ((([{ source := some "n8n" }, { source := some "zapier" },
             { source := some "N8n" }, {}] : List Template).filter
             (fun t => pyLower (t.source.getD "") == pyLower "N8N")).take (100 : Int).toNat).length
         ((([{ source := some "n8n" }, { source := some "zapier" },
             { source := some "N8n" }, {}] : List Template).filter
             (fun t => pyLower (t.source.getD "") == pyLower "N8N")).take (100 : Int).toNat)
         (pySources ((([{ source := some "n8n" }, { source := some "zapier" },
             { source := some "N8n" }, {}] : List Template).filter
             (fun t => pyLower (t.source.getD "") == pyLower "N8N")).take (100 : Int).toNat))⟩ ∧
    (∀ t : Template, t.source = none →
       (pyLower (t.source.getD "") == pyLower "N8N") = false) :=
  handler_source_filter ⟨some "GET", some [("source", "N8N"), ("limit", "100")]⟩
    [{ source := some "n8n" }, { source := some "zapier" },
     { source := some "N8n" }, {}] "N8N" 100
    rfl rfl (by decide) (by decide) (by decide)

/-- C5 (as stated) is false for negative `limit` values, which `int(...)`
accepts and Python slicing interprets from the end of the list: `limit=-1`
over two templates returns one template, while `min(-1, 2) = -1` is not its
count. -/
theorem handler_limit_counterexample :
    handler ⟨some "GET", some [("limit", "-1")]⟩
        (Except.ok [{ source := some "n8n" }, { source := some "zapier" }]) =
      ⟨200, ResponseBody.templatesJson 1 [{ source := some "n8n" }] ["n8n"]⟩ ∧
    ¬ ((1 : Int) = min (-1 : Int) 2) := by
  decide

/-- C5 (amended): for a `GET` request with no `source` filter and an integer
`limit` parameter that parses to `k ≥ 0`, the response contains exactly
`min(k, n)` templates over a list of `n`, and they are the first `min(k, n)`
elements in their original order; `limit=5` over 10 templates returns
exactly 5.  (For `k < 0` the handler instead follows Python slice semantics,
see `handler_limit_counterexample`.) -/
theorem handler_limit (event : HttpEvent) (ts : List Template)
    (ls : String) (k : Int)
    (hm : event.httpMethod = some "GET")
    (hs : (event.queryStringParameters.getD []).lookup "source" = none)
    (hl : (event.queryStringParameters.getD []).lookup "limit" = some ls)
    (hparse : pyInt ls = some k) (hknn : 0 ≤ k) :
    handler event (Except.ok ts) =
      ⟨200, ResponseBody.templatesJson (ts.take k.toNat).length (ts.take k.toNat)
         (pySources (ts.take k.toNat))⟩ ∧
    (ts.take k.toNat).length = min k.toNat ts.length := by
  constructor
  · simp only [handler, hs, hl]
    simp only [Option.getD_none]
    simp only [parseLimitParam, hl, hparse]
    simp only [if_neg (by rw [hm]; decide : ¬ (event.httpMethod = some "OPTIONS")),
      if_neg (by rw [hm]; simp : ¬ (event.httpMethod ≠ some "GET"))]
    have : pyLower "" = "" := rfl
    rw [this]
    simp only [ne_eq, not_true_eq_false, if_false, reduceIte,
      pySliceTo_nonneg _ _ hknn]
  · simp [List.length_take]

/-- Concrete run of `handler_limit`: `limit=5` over a list of 10 templates
returns exactly the first `min(5, 10) = 5`. -/
theorem handler_limit_witness :
    (handler ⟨some "GET", some [("limit", "5")]⟩
        (Except.ok (List.replicate 10 ({} : Template))) =
      ⟨200, ResponseBody.templatesJson ((List.replicate 10 ({} : Template)).take (5 : Int).toNat).length
         ((List.replicate 10 ({} : Template)).take (5 : Int).toNat)
         (pySources ((List.replicate 10 ({} : Template)).take (5 : Int).toNat))⟩ ∧
    ((List.replicate 10 ({} : Template)).take (5 : Int).toNat).length =
      min (5 : Int).toNat (List.replicate 10 ({} : Template)).length) :=
  handler_limit ⟨some "GET", some [("limit", "5")]⟩
    (List.replicate 10 ({} : Template)) "5" 5 rfl rfl rfl rfl (by decide)

/-- C10: every 200 response of the handler (a `GET` whose `limit` parsed,
over successfully loaded data) carries a body whose `count` field equals the
number of elements of its `templates` array, whose `templates` array has at
most 100 elements when no `limit` parameter was given (the default limit),
and whose `sources` field lists, without duplicates, exactly the source
values occurring among the returned templates with `'unknown'` substituted
for a missing source field. -/
theorem handler_response_invariants (event : HttpEvent) (ts : List Template)
    (k : Int)
    (hm : event.httpMethod = some "GET")
    (hk : parseLimitParam (event.queryStringParameters.getD []) = some k) :
    ∃ tpls : List Template,
      handler event (Except.ok ts) =
        ⟨200, ResponseBody.templatesJson tpls.length tpls (pySources tpls)⟩ ∧
      ((event.queryStringParameters.getD []).lookup "limit" = none →
        tpls.length ≤ 100) ∧
      (pySources tpls).Nodup ∧
      (∀ s, s ∈ pySources tpls ↔ s ∈ tpls.map (fun t => t.source.getD "unknown")) := by
  refine ⟨pySliceTo
    (if pyLower ((((event.queryStringParameters.getD []).lookup "source").getD "")) ≠ "" then
      ts.filter (fun t => pyLower (t.source.getD "") ==
        pyLower ((((event.queryStringParameters.getD []).lookup "source").getD "")))
     else ts) k, ?_, ?_, ?_, ?_⟩
  · simp only [handler, hk]
    simp only [if_neg (by rw [hm]; decide : ¬ (event.httpMethod = some "OPTIONS")),
      if_neg (by rw [hm]; simp : ¬ (event.httpMethod ≠ some "GET"))]
  · intro hnone
    have h100 : k = 100 := by
      simp only [parseLimitParam, hnone, Option.some.injEq] at hk
      omega
    subst h100
    rw [pySliceTo_nonneg _ _ (by decide)]
    refine le_trans (List.length_take_le _ _) (by decide)
  · exact List.nodup_dedup _
  · intro s
    exact List.mem_dedup

/-- Concrete run of `handler_response_invariants`: a plain `GET` with no
query string over two records, one of which is missing its source field. -/
theorem handler_response_invariants_witness :
    ∃ tpls : List Template,
      handler ⟨some "GET", none⟩
          (Except.ok [{ source := some "n8n" }, {}]) =
        ⟨200, ResponseBody.templatesJson tpls.length tpls (pySources tpls)⟩ ∧
      (((⟨some "GET", none⟩ : HttpEvent).queryStringParameters.getD []).lookup "limit" = none →
        tpls.length ≤ 100) ∧
      (pySources tpls).Nodup ∧
      (∀ s, s ∈ pySources tpls ↔ s ∈ tpls.map (fun t => t.source.getD "unknown")) :=
  handler_response_invariants ⟨some "GET", none⟩
    [{ source := some "n8n" }, {}] 100 rfl rfl

/-! ## `src/scripts/metadata_generator.py`

A tutorial is a Python dict read with `tutorial.get(key, default)`; each
field may be missing.  `generate_metadata` builds the metadata dict; the
value `datetime.now().strftime('%Y-%m-%d')` is passed in as the explicit
argument `today`. -/

/-- A tutorial record (`{title, description, source, template_url,
content}`), each field possibly missing. -/
structure Tutorial where
  title : Option String := none
  description : Option String := none
  source : Option String := none
  template_url : Option String := none
  content : Option String := none
deriving DecidableEq

/-- The nested `seo` dictionary of the generated metadata. -/
structure SeoMeta where
  og_title : String
  og_description : String
  og_type : String
  twitter_card : String
deriving DecidableEq

/-- The metadata dictionary produced by `generate_metadata`. -/
structure Metadata where
  title : String
  description : String
  keywords : List String
  author : String
  date : String
  category : String
  tags : List String
  source : String
  url : String
  seo : SeoMeta
deriving DecidableEq

/-- Lexicographic (code-point) comparison of character lists: the order
Python `sorted` uses on strings. -/
def strLe : List Char → List Char → Bool
  | [], _ => true
  | _ :: _, [] => false
  | a :: as, b :: bs => if a = b then strLe as bs else decide (a < b)

/-- Model of Python `sorted` on a list of strings. -/
def pySortedStrings (l : List String) : List String :=
  l.insertionSort (fun a b => strLe a.data b.data)

/-- Maximal runs of regex word characters (`\w`, ASCII model) in a character
list. -/
def isWordChar (c : Char) : Bool := c.isAlpha || c.isDigit || c = '_'

def wordRuns : List Char → List (List Char)
  | [] => []
  | c :: rest =>
    let rs := wordRuns rest
    if isWordChar c then
      match rest with
      | c2 :: _ =>
        if isWordChar c2 then
          match rs with
          | r :: rs2 => (c :: r) :: rs2
          | [] => [[c]]
        else [c] :: rs
      | [] => [[c]]
    else rs

/-- `re.findall(r'\b[a-zA-Z]{4,}\b', s)`: the maximal word-character runs of
`s` consisting solely of letters and at least 4 characters long (a run
containing a digit or underscore matches no word boundary inside, so it is
discarded whole). -/
def findWords (s : String) : List String :=
  ((wordRuns s.data).filter
    (fun r => r.all (fun c => c.isAlpha) && decide (4 ≤ r.length))).map String.mk

/-- `MetadataGenerator._extract_keywords`. -/
def extract_keywords (tutorial : Tutorial) : List String :=
  let source := tutorial.source.getD ""
  let sourceKw := if source ≠ "" then [pyLower source] else []
  let titleKw :=
    if tutorial.title.getD "" ≠ "" then
      (findWords (pyLower (tutorial.title.getD ""))).take 5
    else []
  let keywords := (sourceKw ++ ["automation", "workflow", "integration"] ++ titleKw).dedup
  (pySortedStrings keywords).take 10

/-- The hardcoded integration keyword list of `_generate_tags`. -/
def integrationsList : List String :=
  ["slack", "email", "gmail", "github", "trello", "asana",
   "salesforce", "hubspot", "mailchimp", "dropbox", "google"]

/-- The hardcoded action keyword list of `_generate_tags`. -/
def actionsList : List String :=
  ["notification", "sync", "backup", "reminder", "analytics"]

/-- `MetadataGenerator._generate_tags`. -/
def generate_tags (tutorial : Tutorial) : List String :=
  let source := tutorial.source.getD ""
  let sourceTag := if source ≠ "" then [source] else []
  let title := pyLower (tutorial.title.getD "")
  let integrationTags := integrationsList.filter (fun i => pyContains title i)
  let actionTags := actionsList.filter (fun a => pyContains title a)
  pySortedStrings (sourceTag ++ integrationTags ++ actionTags).dedup

/-- `MetadataGenerator._determine_category`. -/
def determine_category (source : String) : String :=
  if pyLower source = "n8n" then "n8n Workflows"
  else if pyLower source = "zapier" then "Zapier Integrations"
  else if pyLower source = "make" then "Make Scenarios"
  else if pyLower source = "integromat" then "Make Scenarios"
  else "Automation"

/-- Python `'\n\n'.split` of a character list: split on each
non-overlapping occurrence of two consecutive newlines, scanning left to
right. -/
def splitParas : List Char → List (List Char)
  | [] => [[]]
  | '\n' :: '\n' :: rest => [] :: splitParas rest
  | c :: rest =>
    match splitParas rest with
    | l :: ls => (c :: l) :: ls
    | [] => [[c]]

/-- `MetadataGenerator._generate_description`. -/
def generate_description (tutorial : Tutorial) : String :=
  let description := tutorial.description.getD ""
  if description ≠ "" then
    if 160 < description.length then description.take 157 ++ "..."
    else description
  else
    let content := tutorial.content.getD ""
    let fallback := "Learn how to set up and use " ++ tutorial.title.getD "this automation"
    if content ≠ "" then
      let paragraphs := ((splitParas content.data).map pyStripChars).filter (fun p => p ≠ [])
      match paragraphs with
      | [] => fallback
      | p :: _ =>
        let firstPara := String.mk p
        if 160 < firstPara.length then firstPara.take 157 ++ "..."
        else firstPara
    else fallback

/-- `MetadataGenerator.generate_metadata`; `today` is the value of
`datetime.now().strftime('%Y-%m-%d')` at call time. -/
def generate_metadata (tutorial : Tutorial) (today : String) : Metadata :=
  let title := tutorial.title.getD "Untitled"
  let source := tutorial.source.getD "unknown"
  { title := title
    description := generate_description tutorial
    keywords := extract_keywords tutorial
    author := "Automations Cookbook"
    date := today
    category := determine_category source
    tags := generate_tags tutorial
    source := source
    url := tutorial.template_url.getD ""
    seo :=
      { og_title := title
        og_description := generate_description tutorial
        og_type := "article"
        twitter_card := "summary_large_image" } }

/-! ## Theorems for the metadata generator -/

/-- C7 (as stated) is false for an empty description: `if description:` is
false on the empty string, so `_generate_description` falls through to the
content-derived text instead of returning the (0 ≤ 160 character)
description unchanged. -/
theorem generate_description_counterexample :
    ({ description := some "", content := some "Hi" } : Tutorial).description = some "" ∧
    ("" : String).length ≤ 160 ∧
    generate_description { description := some "", content := some "Hi" } = "Hi" ∧
    generate_description { description := some "", content := some "Hi" } ≠ "" := by
  decide

/-- C7 (amended): for a tutorial whose description field is a string longer
than 160 characters, `_generate_description` returns its first 157
characters followed by `'...'`; a non-empty description of 160 characters or
fewer is returned unchanged (an empty description instead falls back to
content-derived text). -/
theorem generate_description_truncates (t : Tutorial) (d : String)
    (hd : t.description = some d) :
    (160 < d.length → generate_description t = d.take 157 ++ "...") ∧
    (d ≠ "" → d.length ≤ 160 → generate_description t = d) := by
  constructor
  · intro hlen
    have hne : d ≠ "" := by
      intro he
      subst he
      simp [String.length] at hlen
    simp [generate_description, hd, hne, hlen]
  · intro hne hle
    simp [generate_description, hd, hne, Nat.not_lt.mpr hle]

set_option maxRecDepth 4000 in
/-- Concrete runs of `generate_description_truncates`: a 161-character
description is truncated to its first 157 characters plus an ellipsis, and a
short description is returned unchanged. -/
theorem generate_description_truncates_witness :
    generate_description { description := some (String.mk (List.replicate 161 'a')) } =
      (String.mk (List.replicate 161 'a')).take 157 ++ "..." ∧
    generate_description { description := some "Short description." } =
      "Short description." :=
  ⟨(generate_description_truncates
      { description := some (String.mk (List.replicate 161 'a')) } _ rfl).1 (by decide),
   (generate_description_truncates
      { description := some "Short description." } _ rfl).2 (by decide) (by decide)⟩

/-- C8 (as stated) is false: `generate_metadata` stamps the metadata with
`datetime.now().strftime('%Y-%m-%d')`, so two calls on the same tutorial
that observe different clock dates produce different metadata dictionaries
(their `date` fields differ).  The input below is the sample tutorial of the
module's `__main__` block. -/
theorem generate_metadata_counterexample :
    generate_metadata
        { title := some "Slack to Email Notification"
          description := some "Send email notifications when messages are posted in Slack"
          source := some "zapier"
          template_url := some "https://zapier.com/apps/slack/integrations/email"
          content := some "This tutorial shows you how to set up automated email notifications..." }
        "2025-01-01" ≠
      generate_metadata
        { title := some "Slack to Email Notification"
          description := some "Send email notifications when messages are posted in Slack"
          source := some "zapier"
          template_url := some "https://zapier.com/apps/slack/integrations/email"
          content := some "This tutorial shows you how to set up automated email notifications..." }
        "2025-01-02" := by
  decide

/-- A metadata dictionary with its `date` field blanked. -/
def metadataModuloDate (m : Metadata) : Metadata := { m with date := "" }

/-- C8 (amended): metadata generation is deterministic in the tutorial and
the current date: the clock influences only the `date` field, so two calls
of `generate_metadata` on the same tutorial agree on every other field (and
entirely when they observe the same date). -/
theorem generate_metadata_deterministic (t : Tutorial) (d₁ d₂ : String) :
    metadataModuloDate (generate_metadata t d₁) =
      metadataModuloDate (generate_metadata t d₂) := rfl

/-! ## `src/scripts/metadata_generator.py` — `create_frontmatter`

`create_frontmatter` returns `f"---\n{yaml.dump(metadata)}---\n\n{content}"`.
`yaml.dump(..., default_flow_style=False)` is modelled for the dictionary
shapes `generate_metadata` actually produces — string values, nonempty lists
of strings, and one nonempty nested dictionary of strings — as block-style
lines with the keys sorted (PyYAML sorts keys); the parser reads such a
document back.  Everything here works on `List Char` (the data of a Lean
`String`), so a dictionary is an association list `MetaDict`. -/

/-- A YAML value of the shapes occurring in generated metadata: a string
scalar, a list of string scalars, or a nested flat dictionary. -/
inductive YVal where
  | s (v : List Char)
  | l (items : List (List Char))
  | d (kvs : List (List Char × List Char))
deriving DecidableEq

/-- A metadata dictionary: an association list of keys and YAML values. -/
abbrev MetaDict := List (List Char × YVal)

/-- The block-style lines `yaml.dump` emits for one entry: `key: value`,
or `key:` followed by `- item` lines, or `key:` followed by two-space
indented `k: v` lines. -/
def entryLines : List Char × YVal → List (List Char)
  | (k, .s v) => [k ++ ':' :: ' ' :: v]
  | (k, .l items) => (k ++ [':']) :: items.map (fun it => '-' :: ' ' :: it)
  | (k, .d kvs) =>
    (k ++ [':']) :: kvs.map (fun kv => ' ' :: ' ' :: (kv.1 ++ ':' :: ' ' :: kv.2))

/-- All lines of a dump, in dictionary order. -/
def dumpLines (m : MetaDict) : List (List Char) := (m.map entryLines).flatten

/-- Terminate every line with a newline and concatenate. -/
def joinLines (ls : List (List Char)) : List Char :=
  (ls.map (fun l => l ++ ['\n'])).flatten

/-- Key order used by `yaml.dump(sort_keys=True)`: lexicographic by code
point. -/
def sortEntries (m : MetaDict) : MetaDict :=
  m.insertionSort (fun a b => strLe a.1 b.1)

/-- Model of `yaml.dump(metadata, default_flow_style=False)`. -/
def yaml_dump (m : MetaDict) : List Char := joinLines (dumpLines (sortEntries m))

/-- `MetadataGenerator.create_frontmatter`:
`f"---\n{yaml_frontmatter}---\n\n{content}"`. -/
def create_frontmatter (m : MetaDict) (content : List Char) : List Char :=
  ("---\n").data ++ yaml_dump m ++ ("---\n\n").data ++ content

/-- Split a character list into its newline-separated lines. -/
def splitNL : List Char → List (List Char)
  | [] => [[]]
  | c :: rest =>
    if c = '\n' then [] :: splitNL rest
    else
      match splitNL rest with
      | l :: ls => (c :: l) :: ls
      | [] => [[c]]

/-- Split a line at its first colon: `key: value` gives the key and value,
a trailing bare `key:` gives the key alone; a colon not followed by a space
or the end of the line is rejected. -/
def splitKV : List Char → Option (List Char × Option (List Char))
  | [] => none
  | c :: rest =>
    if c = ':' then
      match rest with
      | [] => some ([], none)
      | ' ' :: v => some ([], some v)
      | _ :: _ => none
    else
      (splitKV rest).map (fun p => (c :: p.1, p.2))

/-- Parse the two-space indented lines of a nested dictionary block. -/
def parseNested : List (List Char) → Option (List (List Char × List Char))
  | [] => some []
  | l :: rest =>
    match splitKV (l.drop 2) with
    | some (k2, some v2) => (parseNested rest).map (fun kvs => (k2, v2) :: kvs)
    | _ => none

/-- Parse block-style dump lines back into a dictionary (fuel-structured
recursion; `fuel` bounds the number of entries). -/
def parseLinesF : Nat → List (List Char) → Option MetaDict
  | _, [] => some []
  | 0, _ :: _ => none
  | fuel + 1, line :: rest =>
    match splitKV line with
    | none => none
    | some (k, some v) => (parseLinesF fuel rest).map (fun m => (k, YVal.s v) :: m)
    | some (k, none) =>
      match rest with
      | [] => none
      | l2 :: _ =>
        if l2.take 2 = ['-', ' '] then
          (parseLinesF fuel (rest.dropWhile (fun l => l.take 2 = ['-', ' ']))).map
            (fun m =>
              (k, YVal.l ((rest.takeWhile (fun l => l.take 2 = ['-', ' '])).map
                (fun l => l.drop 2))) :: m)
        else if l2.take 2 = [' ', ' '] then
          match parseNested (rest.takeWhile (fun l => l.take 2 = [' ', ' '])) with
          | none => none
          | some kvs =>
            (parseLinesF fuel (rest.dropWhile (fun l => l.take 2 = [' ', ' ']))).map
              (fun m => (k, YVal.d kvs) :: m)
        else none

def parseLines (lines : List (List Char)) : Option MetaDict :=
  parseLinesF lines.length lines

/-- Parse the YAML block of a frontmatter document back into a dictionary:
the lines between the opening `---` and the closing `---` (which must be
followed by the blank line the `---\n\n` separator produces). -/
def yaml_parse_frontmatter (doc : List Char) : Option MetaDict :=
  match splitNL doc with
  | [] => none
  | l0 :: rest =>
    if l0 = ['-', '-', '-'] then
      match rest.dropWhile (fun l => l ≠ ['-', '-', '-']) with
      | l1 :: l2 :: _ =>
        if l1 = ['-', '-', '-'] ∧ l2 = [] then
          parseLines (rest.takeWhile (fun l => l ≠ ['-', '-', '-']))
        else none
      | _ => none
    else none

/-- A key `yaml.dump` writes as a plain scalar our parser can read back:
nonempty, and free of colons, newlines, spaces and dashes. -/
def plainKey (k : List Char) : Bool :=
  !k.isEmpty && !k.any (fun c => c == ':' || c == '\n' || c == ' ' || c == '-')

/-- A string value written as a plain scalar: nonempty and newline-free
(PyYAML writes empty strings and strings with newlines in quoted or block
styles outside this model). -/
def plainScalar (v : List Char) : Bool := !v.isEmpty && !v.any (fun c => c == '\n')

def plainEntry : List Char × YVal → Bool
  | (k, .s v) => plainKey k && plainScalar v
  | (k, .l items) => plainKey k && !items.isEmpty && items.all plainScalar
  | (k, .d kvs) =>
    plainKey k && !kvs.isEmpty && kvs.all (fun kv => plainKey kv.1 && plainScalar kv.2)

/-- A dictionary whose dump consists of plain scalars only (the shape
`generate_metadata` produces; empty lists or nested dictionaries would be
dumped in flow style, outside this model). -/
def plainDict (m : MetaDict) : Bool := m.all plainEntry

/-! ## Theorems for the frontmatter round trip -/

theorem splitNL_line (l r : List Char) (hl : ∀ c ∈ l, c ≠ '\n') :
    splitNL (l ++ '\n' :: r) = l :: splitNL r := by
  induction l with
  | nil => simp [splitNL]
  | cons c l ih =>
    have hc : c ≠ '\n' := hl c (List.mem_cons_self _ _)
    have ih2 := ih (fun x hx => hl x (List.mem_cons_of_mem _ hx))
    simp [splitNL, hc, ih2]

theorem splitNL_joinLines (ls : List (List Char)) (r : List Char)
    (h : ∀ x ∈ ls, ∀ c ∈ x, c ≠ '\n') :
    splitNL (joinLines ls ++ r) = ls ++ splitNL r := by
  induction ls with
  | nil => simp [joinLines]
  | cons l ls ih =>
    have hstep : joinLines (l :: ls) ++ r = l ++ '\n' :: (joinLines ls ++ r) := by
      simp [joinLines]
    rw [hstep, splitNL_line l _ (h l (List.mem_cons_self _ _)),
      ih (fun x hx => h x (List.mem_cons_of_mem _ hx))]
    rfl

theorem takeWhile_dropWhile_append {α : Type} (p : α → Bool) (xs ys : List α)
    (hx : ∀ x ∈ xs, p x = true)
    (hy : ys = [] ∨ ∃ y t, ys = y :: t ∧ p y = false) :
    (xs ++ ys).takeWhile p = xs ∧ (xs ++ ys).dropWhile p = ys := by
  induction xs with
  | nil =>
    simp only [List.nil_append]
    rcases hy with h | ⟨y, t, hyt, hpy⟩
    · subst h; simp
    · subst hyt; simp [List.takeWhile_cons, List.dropWhile_cons, hpy]
  | cons x xs ih =>
    have hpx : p x = true := hx x (List.mem_cons_self _ _)
    have h2 := ih (fun a ha => hx a (List.mem_cons_of_mem _ ha))
    simp [List.takeWhile_cons, List.dropWhile_cons, hpx, h2.1, h2.2]

theorem splitKV_scalar (k v : List Char) (hk : ∀ c ∈ k, c ≠ ':') :
    splitKV (k ++ ':' :: ' ' :: v) = some (k, some v) := by
  induction k with
  | nil => simp [splitKV]
  | cons c k ih =>
    have hc : c ≠ ':' := hk c (List.mem_cons_self _ _)
    have ih2 := ih (fun x hx => hk x (List.mem_cons_of_mem _ hx))
    simp [splitKV, hc, ih2]

theorem splitKV_keyOnly (k : List Char) (hk : ∀ c ∈ k, c ≠ ':') :
    splitKV (k ++ [':']) = some (k, none) := by
  induction k with
  | nil => simp [splitKV]
  | cons c k ih =>
    have hc : c ≠ ':' := hk c (List.mem_cons_self _ _)
    have ih2 := ih (fun x hx => hk x (List.mem_cons_of_mem _ hx))
    simp [splitKV, hc, ih2]

theorem plainKey_props {k : List Char} (h : plainKey k = true) :
    k ≠ [] ∧ ∀ c ∈ k, c ≠ ':' ∧ c ≠ '\n' ∧ c ≠ ' ' ∧ c ≠ '-' := by
  simp only [plainKey, Bool.and_eq_true, Bool.not_eq_true'] at h
  obtain ⟨h1, h2⟩ := h
  constructor
  · intro he
    subst he
    simp at h1
  · intro c hc
    have h3 : (c == ':' || c == '\n' || c == ' ' || c == '-') = false := by
      simpa using List.any_eq_false.mp h2 c hc
    simp only [Bool.or_eq_false_iff, beq_eq_false_iff_ne] at h3
    exact ⟨h3.1.1.1, h3.1.1.2, h3.1.2, h3.2⟩

theorem plainScalar_props {v : List Char} (h : plainScalar v = true) :
    v ≠ [] ∧ ∀ c ∈ v, c ≠ '\n' := by
  simp only [plainScalar, Bool.and_eq_true, Bool.not_eq_true'] at h
  obtain ⟨h1, h2⟩ := h
  constructor
  · intro he
    subst he
    simp at h1
  · intro c hc
    have := List.any_eq_false.mp h2 c hc
    simpa using this

theorem parseNested_dump (kvs : List (List Char × List Char))
    (h : kvs.all (fun kv => plainKey kv.1 && plainScalar kv.2) = true) :
    parseNested (kvs.map (fun kv => ' ' :: ' ' :: (kv.1 ++ ':' :: ' ' :: kv.2))) =
      some kvs := by
  induction kvs with
  | nil => rfl
  | cons kv kvs ih =>
    simp only [List.all_cons, Bool.and_eq_true] at h
    obtain ⟨⟨hk, _⟩, hrest⟩ := h
    have hkc := (plainKey_props hk).2
    simp only [List.map_cons, parseNested, List.drop_succ_cons, List.drop_zero]
    rw [splitKV_scalar kv.1 kv.2 (fun c hc => (hkc c hc).1)]
    simp [ih hrest]

theorem cons_take2_ne (c0 : Char) (rest : List Char) (h1 : c0 ≠ '-') (h2 : c0 ≠ ' ') :
    ¬((c0 :: rest).take 2 = ['-', ' ']) ∧ ¬((c0 :: rest).take 2 = [' ', ' ']) := by
  constructor <;> intro h <;> rw [List.take_succ_cons] at h <;>
    exact absurd (List.cons.injEq .. ▸ h).1 (by assumption)

theorem ne_dashes_of_key (k suffix : List Char) (hne : k ≠ [])
    (hk : ∀ c ∈ k, c ≠ '-') : k ++ suffix ≠ ['-', '-', '-'] := by
  cases k with
  | nil => exact absurd rfl hne
  | cons c0 k0 =>
    intro h
    rw [List.cons_append] at h
    have hc : c0 = '-' := by
      have := congrArg List.head? h
      simpa using this
    exact hk c0 (List.mem_cons_self _ _) hc

theorem no_newline_append (k suffix : List Char) (hk : ∀ c ∈ k, c ≠ '\n')
    (hs : ∀ c ∈ suffix, c ≠ '\n') : ∀ c ∈ k ++ suffix, c ≠ '\n' :=
  fun c hc => (List.mem_append.mp hc).elim (hk c) (hs c)

theorem entryLines_ok (e : List Char × YVal) (he : plainEntry e = true) :
    ∀ l ∈ entryLines e, (∀ c ∈ l, c ≠ '\n') ∧ l ≠ ['-', '-', '-'] := by
  obtain ⟨k, val⟩ := e
  cases val with
  | s v =>
    have hkv : plainKey k = true ∧ plainScalar v = true := by
      simpa [plainEntry, Bool.and_eq_true] using he
    obtain ⟨hne, hk⟩ := plainKey_props hkv.1
    intro l hl
    simp only [entryLines, List.mem_singleton] at hl
    subst hl
    refine ⟨no_newline_append k _ (fun c hc => (hk c hc).2.1) ?_,
      ne_dashes_of_key k _ hne (fun c hc => (hk c hc).2.2.2)⟩
    intro c hc
    simp only [List.mem_cons] at hc
    rcases hc with rfl | rfl | h
    · decide
    · decide
    · exact (plainScalar_props hkv.2).2 c h
  | l items =>
    have hkv : plainKey k = true ∧ items.all plainScalar = true := by
      have h2 := he
      simp only [plainEntry, Bool.and_eq_true] at h2
      exact ⟨h2.1.1, h2.2⟩
    obtain ⟨hne, hk⟩ := plainKey_props hkv.1
    intro l hl
    simp only [entryLines, List.mem_cons] at hl
    rcases hl with rfl | hl
    · refine ⟨no_newline_append k _ (fun c hc => (hk c hc).2.1) ?_,
        ne_dashes_of_key k _ hne (fun c hc => (hk c hc).2.2.2)⟩
      intro c hc
      simp only [List.mem_singleton] at hc
      subst hc
      decide
    · obtain ⟨it, hit, rfl⟩ := List.mem_map.mp hl
      have hsc := plainScalar_props (List.all_eq_true.mp hkv.2 it hit)
      constructor
      · intro c hc
        simp only [List.mem_cons] at hc
        rcases hc with rfl | rfl | h
        · decide
        · decide
        · exact hsc.2 c h
      · intro hcontra
        simp at hcontra
  | d kvs =>
    have hkv : plainKey k = true ∧
        kvs.all (fun kv => plainKey kv.1 && plainScalar kv.2) = true := by
      have h2 := he
      simp only [plainEntry, Bool.and_eq_true] at h2
      exact ⟨h2.1.1, h2.2⟩
    obtain ⟨hne, hk⟩ := plainKey_props hkv.1
    intro l hl
    simp only [entryLines, List.mem_cons] at hl
    rcases hl with rfl | hl
    · refine ⟨no_newline_append k _ (fun c hc => (hk c hc).2.1) ?_,
        ne_dashes_of_key k _ hne (fun c hc => (hk c hc).2.2.2)⟩
      intro c hc
      simp only [List.mem_singleton] at hc
      subst hc
      decide
    · obtain ⟨kv, hkvmem, rfl⟩ := List.mem_map.mp hl
      have hkv2 : plainKey kv.1 = true ∧ plainScalar kv.2 = true := by
        simpa [Bool.and_eq_true] using List.all_eq_true.mp hkv.2 kv hkvmem
      constructor
      · intro c hc
        simp only [List.mem_cons] at hc
        rcases hc with rfl | rfl | h
        · decide
        · decide
        · refine no_newline_append kv.1 _
            (fun x hx => ((plainKey_props hkv2.1).2 x hx).2.1) ?_ c h
          intro x hx
          simp only [List.mem_cons] at hx
          rcases hx with rfl | rfl | h2
          · decide
          · decide
          · exact (plainScalar_props hkv2.2).2 x h2
      · intro hcontra
        simp at hcontra

theorem dumpLines_ok (m : MetaDict) (hm : plainDict m = true) :
    ∀ l ∈ dumpLines m, (∀ c ∈ l, c ≠ '\n') ∧ l ≠ ['-', '-', '-'] := by
  intro l hl
  simp only [dumpLines, List.mem_flatten, List.mem_map] at hl
  obtain ⟨ls, ⟨e, he, rfl⟩, hle⟩ := hl
  have hpe : plainEntry e = true :=
    List.all_eq_true.mp hm e he
  exact entryLines_ok e hpe l hle

theorem dumpLines_head (m : MetaDict) (hm : plainDict m = true) :
    dumpLines m = [] ∨ ∃ l t, dumpLines m = l :: t ∧
      ¬(l.take 2 = ['-', ' ']) ∧ ¬(l.take 2 = [' ', ' ']) := by
  cases m with
  | nil => left; rfl
  | cons e m' =>
    right
    obtain ⟨k, val⟩ := e
    have hpe : plainEntry (k, val) = true := by
      simp only [plainDict, List.all_cons, Bool.and_eq_true] at hm
      exact hm.1
    have hpk : plainKey k = true := by
      cases val <;> simp only [plainEntry, Bool.and_eq_true] at hpe
      · exact hpe.1
      · exact hpe.1.1
      · exact hpe.1.1
    obtain ⟨hne, hk⟩ := plainKey_props hpk
    obtain ⟨c0, k0, rfl⟩ : ∃ c0 k0, k = c0 :: k0 := by
      cases k with
      | nil => exact absurd rfl hne
      | cons c0 k0 => exact ⟨c0, k0, rfl⟩
    have hdash : c0 ≠ '-' := (hk c0 (List.mem_cons_self _ _)).2.2.2
    have hspace : c0 ≠ ' ' := (hk c0 (List.mem_cons_self _ _)).2.2.1
    cases val with
    | s v =>
      refine ⟨c0 :: (k0 ++ ':' :: ' ' :: v), dumpLines m', ?_, cons_take2_ne c0 _ hdash hspace⟩
      simp [dumpLines, entryLines]
    | l items =>
      refine ⟨c0 :: (k0 ++ [':']),
        items.map (fun it => '-' :: ' ' :: it) ++ dumpLines m', ?_,
        cons_take2_ne c0 _ hdash hspace⟩
      simp [dumpLines, entryLines]
    | d kvs =>
      refine ⟨c0 :: (k0 ++ [':']),
        kvs.map (fun kv => ' ' :: ' ' :: (kv.1 ++ ':' :: ' ' :: kv.2)) ++ dumpLines m', ?_,
        cons_take2_ne c0 _ hdash hspace⟩
      simp [dumpLines, entryLines]

theorem plainDict_sortEntries (m : MetaDict) (hm : plainDict m = true) :
    plainDict (sortEntries m) = true := by
  simp only [plainDict, List.all_eq_true] at hm ⊢
  intro e he
  exact hm e ((List.perm_insertionSort _ m).mem_iff.mp he)

theorem parseLinesF_dump (m : MetaDict) : ∀ fuel : Nat, plainDict m = true →
    (dumpLines m).length ≤ fuel → parseLinesF fuel (dumpLines m) = some m := by
  induction m with
  | nil =>
    intro fuel _ _
    show parseLinesF fuel [] = some []
    cases fuel <;> rfl
  | cons e m' ih =>
    intro fuel hm hlen
    obtain ⟨k, val⟩ := e
    have hpd : plainEntry (k, val) = true ∧ plainDict m' = true := by
      rw [show plainDict ((k, val) :: m') = (plainEntry (k, val) && plainDict m') from rfl,
        Bool.and_eq_true] at hm
      exact hm
    obtain ⟨hpe, hm'⟩ := hpd
    cases val with
    | s v =>
      have hkv : plainKey k = true ∧ plainScalar v = true := by
        simpa [plainEntry, Bool.and_eq_true] using hpe
      have hkc : ∀ c ∈ k, c ≠ ':' := fun c hc => ((plainKey_props hkv.1).2 c hc).1
      have hdump : dumpLines ((k, YVal.s v) :: m') =
          (k ++ ':' :: ' ' :: v) :: dumpLines m' := by
        simp [dumpLines, entryLines]
      rw [hdump] at hlen ⊢
      cases fuel with
      | zero => simp at hlen
      | succ f =>
        have hlen' : (dumpLines m').length ≤ f := by
          simp only [List.length_cons] at hlen
          omega
        simp only [parseLinesF]
        rw [splitKV_scalar k v hkc]
        simp [ih f hm' hlen']
    | l items =>
      have h3 : plainKey k = true ∧ !items.isEmpty = true ∧
          items.all plainScalar = true := by
        simpa [plainEntry, Bool.and_eq_true, and_assoc] using hpe
      have hkc : ∀ c ∈ k, c ≠ ':' := fun c hc => ((plainKey_props h3.1).2 c hc).1
      obtain ⟨it0, items', rfl⟩ : ∃ it0 items', items = it0 :: items' := by
        cases items with
        | nil => simp at h3
        | cons a b => exact ⟨a, b, rfl⟩
      have hdump : dumpLines ((k, YVal.l (it0 :: items')) :: m') =
          (k ++ [':']) :: (('-' :: ' ' :: it0) ::
            (items'.map (fun it => '-' :: ' ' :: it) ++ dumpLines m')) := by
        simp [dumpLines, entryLines]
      rw [hdump] at hlen ⊢
      cases fuel with
      | zero => simp at hlen
      | succ f =>
        have hlen' : (dumpLines m').length ≤ f := by
          simp only [List.length_cons, List.length_append, List.length_map] at hlen
          omega
        have hx : ∀ x ∈ ('-' :: ' ' :: it0) :: items'.map (fun it => '-' :: ' ' :: it),
            (fun l => decide (l.take 2 = ['-', ' '])) x = true := by
          intro x hx
          simp only [List.mem_cons] at hx
          rcases hx with rfl | hx
          · rfl
          · obtain ⟨it, _, rfl⟩ := List.mem_map.mp hx
            rfl
        have hy : dumpLines m' = [] ∨ ∃ y t, dumpLines m' = y :: t ∧
            (fun l => decide (l.take 2 = ['-', ' '])) y = false := by
          rcases dumpLines_head m' hm' with h | ⟨y, t, hyt, hy1, _⟩
          · exact Or.inl h
          · exact Or.inr ⟨y, t, hyt, by simpa using hy1⟩
        have htw := takeWhile_dropWhile_append _ _ _ hx hy
        simp only [List.cons_append] at htw
        have hcond : (('-' :: ' ' :: it0) : List Char).take 2 = ['-', ' '] := rfl
        have hdrop0 : (('-' :: ' ' :: it0) : List Char).drop 2 = it0 := rfl
        have hdrop : (fun it : List Char => ('-' :: ' ' :: it).drop 2) = fun it => it := by
          funext it
          rfl
        have hmapid : List.map ((fun l => List.drop 2 l) ∘ fun it : List Char => '-' :: ' ' :: it)
            items' = List.map id items' := List.map_congr_left (fun a _ => rfl)
        simp only [parseLinesF]
        rw [splitKV_keyOnly k hkc]
        simp [hcond, htw.1, htw.2, ih f hm' hlen', hdrop0, hdrop,
          List.map_map, hmapid]
    | d kvs =>
      have h3 : plainKey k = true ∧ !kvs.isEmpty = true ∧
          kvs.all (fun kv => plainKey kv.1 && plainScalar kv.2) = true := by
        simpa [plainEntry, Bool.and_eq_true, and_assoc] using hpe
      have hkc : ∀ c ∈ k, c ≠ ':' := fun c hc => ((plainKey_props h3.1).2 c hc).1
      obtain ⟨kv0, kvs', rfl⟩ : ∃ kv0 kvs', kvs = kv0 :: kvs' := by
        cases kvs with
        | nil => simp at h3
        | cons a b => exact ⟨a, b, rfl⟩
      have hdump : dumpLines ((k, YVal.d (kv0 :: kvs')) :: m') =
          (k ++ [':']) :: ((' ' :: ' ' :: (kv0.1 ++ ':' :: ' ' :: kv0.2)) ::
            (kvs'.map (fun kv => ' ' :: ' ' :: (kv.1 ++ ':' :: ' ' :: kv.2)) ++
              dumpLines m')) := by
        simp [dumpLines, entryLines]
      rw [hdump] at hlen ⊢
      cases fuel with
      | zero => simp at hlen
      | succ f =>
        have hlen' : (dumpLines m').length ≤ f := by
          simp only [List.length_cons, List.length_append, List.length_map] at hlen
          omega
        have hx : ∀ x ∈ (' ' :: ' ' :: (kv0.1 ++ ':' :: ' ' :: kv0.2)) ::
            kvs'.map (fun kv => ' ' :: ' ' :: (kv.1 ++ ':' :: ' ' :: kv.2)),
            (fun l => decide (l.take 2 = [' ', ' '])) x = true := by
          intro x hx
          simp only [List.mem_cons] at hx
          rcases hx with rfl | hx
          · rfl
          · obtain ⟨kv, _, rfl⟩ := List.mem_map.mp hx
            rfl
        have hy : dumpLines m' = [] ∨ ∃ y t, dumpLines m' = y :: t ∧
            (fun l => decide (l.take 2 = [' ', ' '])) y = false := by
          rcases dumpLines_head m' hm' with h | ⟨y, t, hyt, _, hy2⟩
          · exact Or.inl h
          · exact Or.inr ⟨y, t, hyt, by simpa using hy2⟩
        have htw := takeWhile_dropWhile_append _ _ _ hx hy
        simp only [List.cons_append] at htw
        have hcond : ((' ' :: ' ' :: (kv0.1 ++ ':' :: ' ' :: kv0.2)) : List Char).take 2 =
            [' ', ' '] := rfl
        have hnest := parseNested_dump (kv0 :: kvs') h3.2.2
        simp only [List.map_cons] at hnest
        simp only [parseLinesF]
        rw [splitKV_keyOnly k hkc]
        simp [hcond, htw.1, htw.2, hnest, ih f hm' hlen']

/-- C9: round trip.  For every metadata dictionary of the shape
`generate_metadata` produces (plain-scalar keys and values, nonempty list
and nested-dictionary values) and every content string, writing the
dictionary as a YAML frontmatter document via `create_frontmatter`
(`---\n<yaml>---\n\n<content>`) and parsing the YAML block back yields the
same dictionary up to the key ordering of the dump — the same set of
key/value pairs. -/
theorem create_frontmatter_roundtrip (m : MetaDict) (content : List Char)
    (hm : plainDict m = true) :
    ∃ m', yaml_parse_frontmatter (create_frontmatter m content) = some m' ∧
      List.Perm m' m := by
  refine ⟨sortEntries m, ?_, List.perm_insertionSort _ m⟩
  have hms : plainDict (sortEntries m) = true := plainDict_sortEntries m hm
  have hok := dumpLines_ok (sortEntries m) hms
  have hdoc : create_frontmatter m content =
      ['-', '-', '-'] ++ '\n' :: (joinLines (dumpLines (sortEntries m)) ++
        (['-', '-', '-'] ++ '\n' :: '\n' :: content)) := by
    simp only [create_frontmatter, yaml_dump]
    simp
  have h1 : splitNL (create_frontmatter m content) =
      ['-', '-', '-'] :: (dumpLines (sortEntries m) ++
        ['-', '-', '-'] :: [] :: splitNL content) := by
    rw [hdoc, splitNL_line _ _ (by decide),
      splitNL_joinLines _ _ (fun x hx => (hok x hx).1),
      splitNL_line _ _ (by decide)]
    simp [splitNL]
  have hx : ∀ x ∈ dumpLines (sortEntries m),
      (fun l => decide (l ≠ ['-', '-', '-'])) x = true := by
    intro x hxm
    simpa using (hok x hxm).2
  have hy : (['-', '-', '-'] :: [] :: splitNL content : List (List Char)) = [] ∨
      ∃ y t, (['-', '-', '-'] :: [] :: splitNL content : List (List Char)) = y :: t ∧
        (fun l => decide (l ≠ ['-', '-', '-'])) y = false :=
    Or.inr ⟨['-', '-', '-'], [] :: splitNL content, rfl, by simp⟩
  have htw := takeWhile_dropWhile_append _ _ _ hx hy
  simp only [yaml_parse_frontmatter, h1]
  rw [htw.1, htw.2]
  simp [parseLines, parseLinesF_dump (sortEntries m) _ hms le_rfl]

/-- Concrete run of `create_frontmatter_roundtrip`: a dictionary with a
scalar, a list and a nested dictionary survives the frontmatter round trip
as a permutation of itself. -/
theorem create_frontmatter_roundtrip_witness :
    ∃ m', yaml_parse_frontmatter (create_frontmatter
        [("title".data, YVal.s "My Page".data),
         ("keywords".data, YVal.l ["automation".data, "n8n".data]),
         ("seo".data, YVal.d [("og_type".data, "article".data),
                              ("og_title".data, "My Page".data)])]
        "Hello\nWorld".data) = some m' ∧
      List.Perm m'
        [("title".data, YVal.s "My Page".data),
         ("keywords".data, YVal.l ["automation".data, "n8n".data]),
         ("seo".data, YVal.d [("og_type".data, "article".data),
                              ("og_title".data, "My Page".data)])] :=
  create_frontmatter_roundtrip
    [("title".data, YVal.s "My Page".data),
     ("keywords".data, YVal.l ["automation".data, "n8n".data]),
     ("seo".data, YVal.d [("og_type".data, "article".data),
                          ("og_title".data, "My Page".data)])]
    "Hello\nWorld".data (by decide)
